import Mathlib

/-!
# Verification of the RegoLab language front-end

A shallow embedding, in Lean 4, of the parts of the RegoLab repository that
its design document makes claims about: the Schema Builder and Path Resolver
(`frontend/lib/data-context.ts`), the completion source
(`frontend/lib/lang-rego/index.ts`), the Diagnostics Mapper
(`backend/src/services/regal.service.js` composed with the CodeMirror-side
mapping in `frontend/components/code-editor.tsx`), the lint-call error
handling, and the Rego expression grammar's precedence structure.

JavaScript strings are modelled as Lean `String`/`List Char`, JSON numbers as
exact unnormalised decimals, objects as insertion-ordered association lists,
`null`/`undefined`-able fields as `Option`, and thrown exceptions as `Option`
or `Except` results.
-/

namespace RegoLab

/-- A JSON value as produced by `JSON.parse`: object fields keep insertion
order (for duplicate keys the first position and the last value win, as in
JavaScript).  A number literal is kept exactly as the pair
`(mantissa, exp10)`, denoting `mantissa · 10 ^ exp10` — the unnormalised
decimal value, rather than the IEEE double `JSON.parse` would produce. -/
inductive Json where
  | null
  | bool (b : Bool)
  | num (mantissa : Int) (exp10 : Int)
  | str (s : String)
  | arr (items : List Json)
  | obj (fields : List (String × Json))

/-! ## Comment stripping (`parseJsonToSchema`, first half)

`data-context.ts` removes JSONC comments with two global regex replaces,
`.replace(/\/\/[^\n]*/g, '')` followed by `.replace(/\/\*[\s\S]*?\*\//g, '')`.
Both are embedded directly at the character-list level with the regexes'
leftmost-match, global-continue semantics.  Note that neither replace is
aware of JSON string literals: a `//` inside a quoted string is removed
exactly like a comment. -/

/-- One `//[^\n]*` match body: drop characters up to (but not including) the
next newline. -/
def dropLineRest (cs : List Char) : List Char :=
  cs.dropWhile (fun c => c ≠ '\n')

/-- Global replace of `/\/\/[^\n]*/g` by the empty string: at each position,
if the next two characters are `//`, the match consumes them and the rest of
the line; scanning resumes after the match.  (Fuelled so that the recursion
is structural; every step consumes at least one character, so fuel equal to
the length is always enough.) -/
def stripLineCommentsF : Nat → List Char → List Char
  | 0, cs => cs
  | _, [] => []
  | fuel + 1, '/' :: '/' :: rest => stripLineCommentsF fuel (dropLineRest rest)
  | fuel + 1, c :: rest => c :: stripLineCommentsF fuel rest

def stripLineComments (cs : List Char) : List Char :=
  stripLineCommentsF cs.length cs

/-- Find the earliest `*/` and return the characters after it (`none` when no
`*/` occurs), i.e. the lazy `[\s\S]*?\*\//` part of the block-comment regex. -/
def dropThroughClose : List Char → Option (List Char)
  | [] => none
  | [_] => none
  | c₁ :: c₂ :: rest =>
    if c₁ = '*' ∧ c₂ = '/' then some rest
    else dropThroughClose (c₂ :: rest)

/-- Global replace of `/\/\*[\s\S]*?\*\//g` by the empty string.  When a `/*`
has no matching `*/` anywhere after it, the regex cannot match there or at any
later position, so the remainder is kept verbatim.  (Fuelled as above.) -/
def stripBlockCommentsF : Nat → List Char → List Char
  | 0, cs => cs
  | _, [] => []
  | fuel + 1, '/' :: '*' :: rest =>
    (match dropThroughClose rest with
     | some rest' => stripBlockCommentsF fuel rest'
     | none => '/' :: '*' :: rest)
  | fuel + 1, c :: rest => c :: stripBlockCommentsF fuel rest

def stripBlockComments (cs : List Char) : List Char :=
  stripBlockCommentsF cs.length cs

/-- The comment stripping performed by `parseJsonToSchema`: the line-comment
replace runs first, the block-comment replace second. -/
def stripComments (s : String) : String :=
  String.mk (stripBlockComments (stripLineComments s.data))

/-! ## `JSON.parse`

The second half of `parseJsonToSchema` is JavaScript's `JSON.parse`, embedded
as a recursive-descent parser over the character list, returning `none` where
`JSON.parse` throws a `SyntaxError`.  Number values are kept as exact
unnormalised decimals; duplicate object keys keep the first key's position
and the last value, as JavaScript property assignment does. -/

/-- The insignificant whitespace characters of ECMA-404 / `JSON.parse`. -/
def isJsonWs (c : Char) : Bool :=
  c = ' ' || c = '\t' || c = '\n' || c = '\r'

def skipWs : List Char → List Char
  | [] => []
  | c :: cs => if isJsonWs c then skipWs cs else c :: cs

def hexVal (c : Char) : Option Nat :=
  if '0' ≤ c ∧ c ≤ '9' then some (c.toNat - '0'.toNat)
  else if 'a' ≤ c ∧ c ≤ 'f' then some (c.toNat - 'a'.toNat + 10)
  else if 'A' ≤ c ∧ c ≤ 'F' then some (c.toNat - 'A'.toNat + 10)
  else none

/-- Body of a JSON string literal, after the opening quote: processes the
escape sequences `\" \\ \/ \b \f \n \r \t \uXXXX`, rejects raw control
characters, and stops at the closing quote. -/
def parseStringBody : List Char → List Char → Option (String × List Char)
  | [], _ => none
  | c :: rest, acc =>
    if c = '"' then some (String.mk acc.reverse, rest)
    else if c = '\\' then
      match rest with
      | [] => none
      | e :: rest' =>
        if e = '"' then parseStringBody rest' ('"' :: acc)
        else if e = '\\' then parseStringBody rest' ('\\' :: acc)
        else if e = '/' then parseStringBody rest' ('/' :: acc)
        else if e = 'b' then parseStringBody rest' (Char.ofNat 8 :: acc)
        else if e = 'f' then parseStringBody rest' (Char.ofNat 12 :: acc)
        else if e = 'n' then parseStringBody rest' ('\n' :: acc)
        else if e = 'r' then parseStringBody rest' (Char.ofNat 13 :: acc)
        else if e = 't' then parseStringBody rest' ('\t' :: acc)
        else if e = 'u' then
          match rest' with
          | h₁ :: h₂ :: h₃ :: h₄ :: rest₂ =>
            match hexVal h₁, hexVal h₂, hexVal h₃, hexVal h₄ with
            | some a, some b, some c', some d =>
              parseStringBody rest₂ (Char.ofNat (((a * 16 + b) * 16 + c') * 16 + d) :: acc)
            | _, _, _, _ => none
          | _ => none
        else none
    else if c.toNat < 32 then none
    else parseStringBody rest (c :: acc)

def takeDigits (cs : List Char) : List Char × List Char :=
  (cs.takeWhile Char.isDigit, cs.dropWhile Char.isDigit)

def digitsToNat (ds : List Char) : Nat :=
  ds.foldl (fun acc c => acc * 10 + (c.toNat - '0'.toNat)) 0

/-- A JSON number literal: `-?(0|[1-9][0-9]*)(\.[0-9]+)?([eE][+-]?[0-9]+)?`,
evaluated exactly as `mantissa · 10 ^ exp10`. -/
def parseNumber (cs : List Char) : Option ((Int × Int) × List Char) :=
  let (neg, cs₁) : Bool × List Char :=
    match cs with
    | '-' :: rest => (true, rest)
    | _ => (false, cs)
  match cs₁ with
  | [] => none
  | c :: _ =>
    if ¬ c.isDigit then none
    else
      let intDs := (takeDigits cs₁).1
      let cs₂ := (takeDigits cs₁).2
      if intDs.length > 1 ∧ intDs.headD '0' = '0' then none
      else
        let fracRes : Option (List Char × List Char) :=
          match cs₂ with
          | '.' :: rest =>
            let (fds, rest') := takeDigits rest
            if fds = [] then none else some (fds, rest')
          | _ => some ([], cs₂)
        match fracRes with
        | none => none
        | some (fds, cs₃) =>
          let expRes : Option (Int × List Char) :=
            match cs₃ with
            | e :: rest =>
              if e = 'e' ∨ e = 'E' then
                let (esign, rest₁) : Int × List Char :=
                  match rest with
                  | '+' :: r => (1, r)
                  | '-' :: r => (-1, r)
                  | _ => (1, rest)
                let (eds, rest₂) := takeDigits rest₁
                if eds = [] then none else some (esign * digitsToNat eds, rest₂)
              else some (0, cs₃)
            | [] => some (0, [])
          match expRes with
          | none => none
          | some (ex, cs₄) =>
            let mantissa : Int := digitsToNat (intDs ++ fds)
            let sign : Int := if neg then -1 else 1
            some ((sign * mantissa, ex - fds.length), cs₄)

/-- JavaScript property assignment on an insertion-ordered object: a repeated
key keeps its first position but takes the new value. -/
def insertField (fields : List (String × Json)) (k : String) (v : Json) :
    List (String × Json) :=
  match fields with
  | [] => [(k, v)]
  | (k', v') :: rest => if k' = k then (k', v) :: rest else (k', v') :: insertField rest k v

mutual

/-- The `JSON.parse` value grammar (fuelled; fuel `2 * length + 2` always
suffices since every grammar step consumes input). -/
def parseValue : Nat → List Char → Option (Json × List Char)
  | 0, _ => none
  | fuel + 1, cs =>
    match skipWs cs with
    | 'n' :: 'u' :: 'l' :: 'l' :: rest => some (.null, rest)
    | 't' :: 'r' :: 'u' :: 'e' :: rest => some (.bool true, rest)
    | 'f' :: 'a' :: 'l' :: 's' :: 'e' :: rest => some (.bool false, rest)
    | '"' :: rest => (parseStringBody rest []).map fun p => (.str p.1, p.2)
    | '[' :: rest =>
      match skipWs rest with
      | ']' :: rest' => some (.arr [], rest')
      | _ => parseArrayItems fuel rest []
    | '{' :: rest =>
      match skipWs rest with
      | '}' :: rest' => some (.obj [], rest')
      | _ => parseObjectFields fuel rest []
    | cs' => (parseNumber cs').map fun p => (.num p.1.1 p.1.2, p.2)

/-- Comma-separated array items, after the opening `[`. -/
def parseArrayItems : Nat → List Char → List Json → Option (Json × List Char)
  | 0, _, _ => none
  | fuel + 1, cs, acc =>
    match parseValue fuel cs with
    | none => none
    | some (v, rest) =>
      match skipWs rest with
      | ',' :: rest' => parseArrayItems fuel rest' (v :: acc)
      | ']' :: rest' => some (.arr (v :: acc).reverse, rest')
      | _ => none

/-- Comma-separated `"key": value` members, after the opening `{`. -/
def parseObjectFields : Nat → List Char → List (String × Json) →
    Option (Json × List Char)
  | 0, _, _ => none
  | fuel + 1, cs, acc =>
    match skipWs cs with
    | '"' :: rest =>
      match parseStringBody rest [] with
      | none => none
      | some (k, rest₁) =>
        match skipWs rest₁ with
        | ':' :: rest₂ =>
          match parseValue fuel rest₂ with
          | none => none
          | some (v, rest₃) =>
            match skipWs rest₃ with
            | ',' :: rest₄ => parseObjectFields fuel rest₄ (insertField acc k v)
            | '}' :: rest₄ => some (.obj (insertField acc k v), rest₄)
            | _ => none
        | _ => none
    | _ => none

end

/-- `JSON.parse`: a complete value with only whitespace around it; `none`
models the thrown `SyntaxError`. -/
def jsonParse (s : String) : Option Json :=
  match parseValue (2 * s.length + 2) s.data with
  | none => none
  | some (v, rest) => if skipWs rest = [] then some v else none

/-! ## The `SchemaNode` data model and the Schema Builder
(`data-context.ts`, `buildSchemaNode` / `parseJsonToSchema`) -/

inductive SchemaType where
  | object | array | string | number | boolean | null
deriving DecidableEq

/-- The string spelling of a schema type, as it appears in the TypeScript
union `'object' | 'array' | 'string' | 'number' | 'boolean' | 'null'`. -/
def SchemaType.name : SchemaType → String
  | .object => "object"
  | .array => "array"
  | .string => "string"
  | .number => "number"
  | .boolean => "boolean"
  | .null => "null"

/-- `SchemaNode` from `data-context.ts`.  `children` is an insertion-ordered
record; optional fields are `Option` (in TypeScript, absent properties).  The
`example` property is named `exampleValue` here because `example` is reserved
in Lean. -/
inductive SchemaNode where
  | mk (type : SchemaType)
       (children : Option (List (String × SchemaNode)))
       (arrayItemType : Option SchemaNode)
       (exampleValue : Option Json)
       (source : Option String)

def SchemaNode.type : SchemaNode → SchemaType
  | .mk t _ _ _ _ => t

def SchemaNode.children : SchemaNode → Option (List (String × SchemaNode))
  | .mk _ c _ _ _ => c

def SchemaNode.arrayItemType : SchemaNode → Option SchemaNode
  | .mk _ _ a _ _ => a

def SchemaNode.exampleValue : SchemaNode → Option Json
  | .mk _ _ _ e _ => e

def SchemaNode.source : SchemaNode → Option String
  | .mk _ _ _ _ s => s

mutual

/-- `buildSchemaNode` from `data-context.ts`: recursively convert a parsed
JSON value into a `SchemaNode`.  Arrays keep up to three elements as the
example and infer `arrayItemType` from the first element only; objects keep
up to five key names as the example. -/
def buildSchemaNode : Json → Option String → SchemaNode
  | .null, sourceName => .mk .null none none (some .null) sourceName
  | .arr xs, sourceName =>
    .mk .array none
      (match xs with
       | [] => none
       | x :: _ => some (buildSchemaNode x sourceName))
      (some (.arr (xs.take 3)))
      sourceName
  | .obj kvs, sourceName =>
    .mk .object (some (buildChildren kvs sourceName)) none
      (some (.arr (((kvs.map Prod.fst).take 5).map Json.str)))
      sourceName
  | .str s, sourceName => .mk .string none none (some (.str s)) sourceName
  | .num m e, sourceName => .mk .number none none (some (.num m e)) sourceName
  | .bool b, sourceName => .mk .boolean none none (some (.bool b)) sourceName
termination_by v _ => sizeOf v

/-- The `for (const [key, val] of Object.entries(value))` loop of
`buildSchemaNode`. -/
def buildChildren : List (String × Json) → Option String → List (String × SchemaNode)
  | [], _ => []
  | (k, v) :: rest, sourceName =>
    (k, buildSchemaNode v sourceName) :: buildChildren rest sourceName
termination_by kvs _ => sizeOf kvs

end

/-- `parseJsonToSchema` from `data-context.ts`: strip JSONC comments with the
two regex replaces, `JSON.parse` the remainder, and build the schema; the
surrounding `try/catch` turns any parse failure into `null` (`none`). -/
def parseJsonToSchema (jsonString : String) (sourceName : Option String) :
    Option SchemaNode :=
  (jsonParse (stripComments jsonString)).map (buildSchemaNode · sourceName)

/-- `DataContext` from `data-context.ts`: the two addressable roots, `null`
when the backing text failed to parse. -/
structure DataContext where
  input : Option SchemaNode
  data : Option SchemaNode

/-! ## Display formatting helpers of `data-context.ts` -/

/-- `getCompletionType`: schema type → CodeMirror completion kind. -/
def getCompletionType : SchemaType → String
  | .object => "property"
  | .array => "variable"
  | .string => "text"
  | .number => "constant"
  | .boolean => "constant"
  | .null => "variable"

/-- `formatTypeDescription`: arrays with a known item type render as
`array<itemType>`. -/
def formatTypeDescription (node : SchemaNode) : String :=
  if node.type = .array then
    match node.arrayItemType with
    | some item => "array<" ++ item.type.name ++ ">"
    | none => "array"
  else node.type.name

/-- JavaScript `Number`-to-string conversion, exact for integral values (the
only values the development evaluates); a non-integral rational is rendered
as its reduced fraction, which departs from JavaScript's float printing but
is never compared by any claim. -/
def numToString (m e : Int) : String :=
  if 0 ≤ e then toString (m * 10 ^ e.toNat)
  else toString m ++ "e" ++ toString e

/-- `JSON.stringify` escaping of one character inside a string literal. -/
def escapeStringChar (c : Char) : List Char :=
  if c = '"' then ['\\', '"']
  else if c = '\\' then ['\\', '\\']
  else if c = '\n' then ['\\', 'n']
  else if c = Char.ofNat 13 then ['\\', 'r']
  else if c = '\t' then ['\\', 't']
  else if c = Char.ofNat 8 then ['\\', 'b']
  else if c = Char.ofNat 12 then ['\\', 'f']
  else if c.toNat < 32 then
    ['\\', 'u', '0', '0',
     (Nat.digitChar (c.toNat / 16)), (Nat.digitChar (c.toNat % 16))]
  else [c]

def jsonQuote (s : String) : String :=
  "\"" ++ String.mk (s.data.foldr (fun c acc => escapeStringChar c ++ acc) []) ++ "\""

mutual

/-- `JSON.stringify` (no indentation), used for array example previews. -/
def Json.stringify : Json → String
  | .null => "null"
  | .bool b => if b then "true" else "false"
  | .num m e => numToString m e
  | .str s => jsonQuote s
  | .arr xs => "[" ++ stringifyItems xs ++ "]"
  | .obj kvs => "\x7b" ++ stringifyFields kvs ++ "\x7d"
termination_by v => sizeOf v

def stringifyItems : List Json → String
  | [] => ""
  | [x] => Json.stringify x
  | x :: y :: rest => Json.stringify x ++ "," ++ stringifyItems (y :: rest)
termination_by xs => sizeOf xs

def stringifyFields : List (String × Json) → String
  | [] => ""
  | [(k, v)] => jsonQuote k ++ ":" ++ Json.stringify v
  | (k, v) :: kv :: rest =>
    jsonQuote k ++ ":" ++ Json.stringify v ++ "," ++ stringifyFields (kv :: rest)
termination_by kvs => sizeOf kvs

end

mutual

/-- JavaScript `String(value)` for the values that can appear as a scalar
node's example. -/
def jsString : Json → String
  | .null => "null"
  | .bool b => if b then "true" else "false"
  | .num m e => numToString m e
  | .str s => s
  | .arr xs => String.intercalate "," (jsStringList xs)
  | .obj _ => "[object Object]"
termination_by v => sizeOf v

def jsStringList : List Json → List String
  | [] => []
  | x :: rest => jsString x :: jsStringList rest
termination_by xs => sizeOf xs

end

/-- A string element of an object node's key-example array (always a string
for builder output). -/
def jsonStrOrEmpty : Json → String
  | .str s => s
  | _ => ""

/-- `formatExampleValue` from `data-context.ts`. -/
def formatExampleValue (node : SchemaNode) : String :=
  match node.exampleValue with
  | none => ""
  | some .null => ""
  | some ex =>
    if node.type = .object then
      let keys := match ex with | .arr ks => ks.map jsonStrOrEmpty | _ => []
      "\x7b " ++ String.intercalate ", " keys ++
        (if keys.length ≥ 5 then ", ..." else "") ++ " \x7d"
    else if node.type = .array then
      let arr := match ex with | .arr xs => xs | _ => []
      let preview := Json.stringify (.arr (arr.take 3))
      if arr.length > 3 then String.mk preview.data.dropLast ++ ", ...]" else preview
    else if node.type = .string then
      let str := jsonStrOrEmpty ex
      if str.length > 30 then "\"" ++ (str.take 30) ++ "...\"" else "\"" ++ str ++ "\""
    else jsString ex

/-! ## The Path Resolver
(`getCompletionsForPath` / `getTooltipForPath` in `data-context.ts`) -/

/-- A CodeMirror completion candidate; `detail`/`info` are absent on some
keyword completions, hence `Option`. -/
structure Completion where
  label : String
  type : String
  detail : Option String
  info : Option String
deriving DecidableEq

/-- Whether JavaScript's `parseInt(part, 10)` returns a number (not `NaN`):
after optional leading whitespace and an optional sign, the next character is
a decimal digit. -/
def jsParseIntDefined (part : String) : Bool :=
  match part.data.dropWhile (fun c =>
      c = ' ' || c = '\t' || c = '\n' || c = Char.ofNat 13 ||
      c = Char.ofNat 11 || c = Char.ofNat 12) with
  | [] => false
  | c :: rest =>
    if c = '+' || c = '-' then
      match rest with
      | [] => false
      | d :: _ => d.isDigit
    else c.isDigit

/-- One iteration of the completion loop's segment resolution in
`getCompletionsForPath` (the loop body after the empty-segment `continue`). -/
def completionStep (current : SchemaNode) (part : String) : Option SchemaNode :=
  if current.type = .object ∧ current.children.isSome then
    List.lookup part (current.children.getD [])
  else
    match current.arrayItemType with
    | some item =>
      if current.type = .array then
        if jsParseIntDefined part then some item
        else if item.type = .object ∧ item.children.isSome then
          List.lookup part (item.children.getD [])
        else none
      else none
    | none => none

/-- The `for (const part of pathParts)` walk shared shape: empty parts are
skipped (`if (!part) continue`), a `null` current short-circuits every later
iteration (`if (!current) break`). -/
def completionWalk : Option SchemaNode → List String → Option SchemaNode
  | cur, [] => cur
  | cur, part :: rest =>
    if part = "" then completionWalk cur rest
    else
      match cur with
      | none => none
      | some c => completionWalk (completionStep c part) rest

/-- JavaScript `string.split('.')`. -/
def splitOnDotAux : List Char → List Char → List String
  | [], acc => [String.mk acc.reverse]
  | c :: rest, acc =>
    if c = '.' then String.mk acc.reverse :: splitOnDotAux rest []
    else splitOnDotAux rest (c :: acc)

def jsSplitDot (s : String) : List String := splitOnDotAux s.data []

/-- Root schema selection shared by both resolver entry points:
`parts[0]` must be the literal `input` or `data`. -/
def rootSchema (context : DataContext) (root : String) : Option SchemaNode :=
  if root = "input" then context.input
  else if root = "data" then context.data
  else none

/-- A direct object-property completion candidate. -/
def objectCompletion (kv : String × SchemaNode) : Completion :=
  { label := kv.1
    type := getCompletionType kv.2.type
    detail := some kv.2.type.name
    info := some (formatExampleValue kv.2) }

/-- An array-item completion candidate, `[_].`-prefixed. -/
def arrayItemCompletion (kv : String × SchemaNode) : Completion :=
  { label := "[_]." ++ kv.1
    type := getCompletionType kv.2.type
    detail := some ("array item → " ++ kv.2.type.name)
    info := some (formatExampleValue kv.2) }

/-- `getCompletionsForPath` from `data-context.ts`. -/
def getCompletionsForPath (context : DataContext) (pfx : String) : List Completion :=
  let parts := jsSplitDot pfx
  match rootSchema context (parts.headD "") with
  | none => []
  | some schema =>
    match completionWalk (some schema) parts.tail with
    | none => []
    | some current =>
      if current.type = .object ∧ current.children.isSome then
        (current.children.getD []).map objectCompletion
      else
        match current.arrayItemType with
        | some item =>
          if current.type = .array ∧ item.type = .object ∧ item.children.isSome then
            (item.children.getD []).map arrayItemCompletion
          else []
        | none => []

/-- The `/^\[(\d+|_)\]$/` test in `getTooltipForPath`. -/
def isIndexSegment (part : String) : Bool :=
  match part.data with
  | '[' :: rest =>
    (rest.getLast? = some ']') &&
      (let mid := rest.dropLast
       mid = ['_'] || (decide (mid ≠ []) && mid.all Char.isDigit))
  | _ => false

/-- One iteration of the tooltip loop's segment resolution. -/
def tooltipStep (current : SchemaNode) (part : String) : Option SchemaNode :=
  if isIndexSegment part ∧ current.type = .array ∧ current.arrayItemType.isSome then
    current.arrayItemType
  else if current.type = .object ∧ current.children.isSome then
    List.lookup part (current.children.getD [])
  else
    match current.arrayItemType with
    | some item =>
      if current.type = .array ∧ item.type = .object ∧ item.children.isSome then
        List.lookup part (item.children.getD [])
      else none
    | none => none

def tooltipWalk : Option SchemaNode → List String → Option SchemaNode
  | cur, [] => cur
  | cur, part :: rest =>
    if part = "" then tooltipWalk cur rest
    else
      match cur with
      | none => none
      | some c => tooltipWalk (tooltipStep c part) rest

/-- The tooltip payload; the `example` property is `exampleText` here because
`example` is reserved in Lean. -/
structure TooltipInfo where
  type : String
  exampleText : String
  source : Option String

/-- `getTooltipForPath` from `data-context.ts`. -/
def getTooltipForPath (context : DataContext) (path : String) : Option TooltipInfo :=
  let parts := jsSplitDot path
  match rootSchema context (parts.headD "") with
  | none => none
  | some schema =>
    match tooltipWalk (some schema) parts.tail with
    | none => none
    | some current =>
      some { type := formatTypeDescription current
             exampleText := formatExampleValue current
             source := current.source }

/-! ## The completion source (`regoCompletionSource` in `lang-rego/index.ts`)

The two regular expressions the source applies to the text before the cursor,
`/(input|data)(\.[a-zA-Z_][a-zA-Z0-9_]*)*\.?$/` and
`/\b(inp|inpu|input|dat|data)$/`, are embedded as decidable suffix matchers
with JavaScript's leftmost-match semantics (`String.prototype.match` tries
each start position from the left; `$` anchors the match to the end of the
text). -/

def isIdentStartChar (c : Char) : Bool := c.isAlpha || c = '_'

def isIdentChar (c : Char) : Bool := c.isAlphanum || c = '_'

/-- Whether a suffix is in `((\.[a-zA-Z_][a-zA-Z0-9_]*)*\.?)` — the segment
part of the path regex after the root word.  `insideIdent` is true while an
identifier segment is being consumed: there further identifier characters may
extend the current segment; at a segment boundary (`insideIdent = false`,
i.e. right after the root word) they may not. -/
def pathSegs : Bool → List Char → Bool
  | _, [] => true
  | insideIdent, c :: rest =>
    if insideIdent ∧ isIdentChar c then pathSegs true rest
    else if c = '.' then
      match rest with
      | [] => true
      | d :: rest' => isIdentStartChar d && pathSegs true rest'
    else false

/-- Whether a suffix matches the whole path regex
`(input|data)(\.[a-zA-Z_][a-zA-Z0-9_]*)*\.?$`. -/
def pathSuffixOk (cs : List Char) : Bool :=
  match cs with
  | 'i' :: 'n' :: 'p' :: 'u' :: 't' :: rest => pathSegs false rest
  | 'd' :: 'a' :: 't' :: 'a' :: rest => pathSegs false rest
  | _ => false

/-- `textBefore.match(/(input|data)(\.[…])*\.?$/)`: the matched text is the
earliest-starting suffix in the pattern's language. -/
def findPathMatch : List Char → Option (List Char)
  | [] => none
  | c :: rest => if pathSuffixOk (c :: rest) then some (c :: rest) else findPathMatch rest

def isWordChar (c : Char) : Bool := c.isAlphanum || c = '_'

/-- The alternation `(inp|inpu|input|dat|data)` anchored by `$`: the whole
remaining suffix must be one of the five words. -/
def suffixRootWord (cs : List Char) : Option String :=
  if cs = "inp".data then some "inp"
  else if cs = "inpu".data then some "inpu"
  else if cs = "input".data then some "input"
  else if cs = "dat".data then some "dat"
  else if cs = "data".data then some "data"
  else none

/-- `textBefore.match(/\b(inp|inpu|input|dat|data)$/)`: earliest start whose
suffix is one of the five words, with a word boundary before it (`prev` is
the character before the current position, `none` at the start of the text). -/
def findRootMatch : Option Char → List Char → Option String
  | _, [] => none
  | prev, c :: rest =>
    match suffixRootWord (c :: rest) with
    | some w =>
      if (match prev with | none => true | some p => ¬ isWordChar p) then some w
      else findRootMatch (some c) rest
    | none => findRootMatch (some c) rest

/-- The hard-coded `keywordCompletions` list of `lang-rego/index.ts`. -/
def keywordCompletions : List Completion :=
  [ ⟨"package", "keyword", none, some "Package declaration"⟩,
    ⟨"import", "keyword", none, some "Import statement"⟩,
    ⟨"default", "keyword", none, some "Default rule value"⟩,
    ⟨"some", "keyword", none, some "Existential quantifier"⟩,
    ⟨"every", "keyword", none, some "Universal quantifier"⟩,
    ⟨"if", "keyword", none, some "Conditional clause"⟩,
    ⟨"else", "keyword", none, some "Else clause"⟩,
    ⟨"contains", "keyword", none, some "Partial set rule"⟩,
    ⟨"with", "keyword", none, some "Mock/replace value"⟩,
    ⟨"in", "keyword", none, some "Set membership"⟩,
    ⟨"not", "keyword", none, some "Negation"⟩,
    ⟨"as", "keyword", none, some "Alias"⟩,
    ⟨"true", "constant", none, some "Boolean true"⟩,
    ⟨"false", "constant", none, some "Boolean false"⟩,
    ⟨"null", "constant", none, some "Null value"⟩,
    ⟨"set", "function", none, some "Empty set constructor"⟩ ]

/-- The root completion entry for `input`. -/
def inputRootCompletion : Completion :=
  ⟨"input", "variable", some "Input document",
   some "The input document for policy evaluation"⟩

/-- The root completion entry for `data`. -/
def dataRootCompletion : Completion :=
  ⟨"data", "variable", some "Data document",
   some "The data document for policy evaluation"⟩

/-- The `rootCompletions` array built in the root-word special case: the two
root entries filtered to whichever of `input`/`data` has a non-null schema. -/
def regoRootCompletions (ctx : DataContext) : List Completion :=
  (if ctx.input.isSome then [inputRootCompletion] else []) ++
    (if ctx.data.isSome then [dataRootCompletion] else [])

/-- Index of the last `.` of the matched path (JavaScript `lastIndexOf`,
`-1` when absent). -/
def lastDotIndex (cs : List Char) : Int :=
  let r := cs.reverse.indexOf '.'
  if r = cs.length then -1 else (cs.length : Int) - 1 - r

/-- The trailing run of word characters before the cursor, used to model the
token span `completeFromList` computes for the generic fallback list. -/
def trailingWordRun (cs : List Char) : Nat :=
  (cs.reverse.takeWhile isWordChar).length

/-- `regoCompletionSource` from `lang-rego/index.ts`, as a function of the
syntax-node name at the cursor, the line text before the cursor, and the
current `DataContext`.  `builtins` stands for the completions derived from
`capabilities.json` (a data file, not part of the analysed source).  The
result is `none` where the source returns `null`, otherwise the `from`
position (as an offset into `textBefore`) and the offered options.  The final
`completeFromList(allCompletions)` fallback is modelled by its documented
behaviour: it matches the trailing word token (requiring one to exist) and
offers the whole list. -/
def regoCompletionSource (builtins : List Completion) (nodeName : String)
    (textBefore : String) (ctx : DataContext) : Option (Int × List Completion) :=
  if nodeName = "String" ∨ nodeName = "RawString" ∨ nodeName = "LineComment" then
    none
  else
    let pos : Int := textBefore.length
    let pathBranch : Option (Int × List Completion) :=
      match findPathMatch textBefore.data with
      | none => none
      | some m =>
        let endsWithDot := m.getLast? = some '.'
        let fullPath := String.mk (if endsWithDot then m.dropLast else m)
        let completions := getCompletionsForPath ctx fullPath
        if completions.isEmpty then none
        else
          let fromPos := pos - ((m.length : Int) - lastDotIndex m - 1)
          some (if endsWithDot then pos else fromPos, completions)
    match pathBranch with
    | some r => some r
    | none =>
      let rootBranch : Option (Int × List Completion) :=
        match findRootMatch none textBefore.data with
        | none => none
        | some w =>
          let roots := regoRootCompletions ctx
          if roots.isEmpty then none else some (pos - (w.length : Int), roots)
      match rootBranch with
      | some r => some r
      | none =>
        if nodeName = "package" ∨ nodeName = "import" then none
        else
          let run := trailingWordRun textBefore.data
          if run = 0 then none
          else some (pos - (run : Int), builtins ++ keywordCompletions)

/-! ## The Diagnostics Mapper

Backend half: `mapToDiagnostics` in `backend/src/services/regal.service.js`
turns a Regal violation's 1-based `{row, col, text}` location into a
`{from: {line, col}, to: {line, col}}` diagnostic, with
`to.col = col + (text.length || 1)`.  Frontend half: the mapping loop inside
`createRegoLinter` in `frontend/components/code-editor.tsx` converts those
1-based positions into clamped 0-based offsets against the current CodeMirror
document.  JavaScript's `||` defaulting (which also replaces `0` and the
empty string) is modelled explicitly. -/

def jsOrInt (v : Option Int) (d : Int) : Int :=
  match v with
  | none => d
  | some x => if x = 0 then d else x

def jsOrStr (v : Option String) (d : String) : String :=
  match v with
  | none => d
  | some s => if s = "" then d else s

/-- `location.text?.length || 1`. -/
def jsTextLen (t : Option String) : Int :=
  match t with
  | none => 1
  | some s => if s.length = 0 then 1 else s.length

structure RegalLocation where
  row : Option Int
  col : Option Int
  text : Option String

structure RegalViolation where
  title : Option String
  category : Option String
  level : Option String
  location : Option RegalLocation
  description : Option String
  documentationUrl : Option String

/-- The backend diagnostic record (`from`/`to` flattened into
line/col pairs since `from` is reserved in Lean). -/
structure LintDiagnostic where
  fromLine : Int
  fromCol : Int
  toLine : Int
  toCol : Int
  severity : String
  message : String
  source : String
  rule : Option String
  category : Option String
  documentation : Option String

/-- The `.map` body of `mapToDiagnostics`. -/
def mapViolation (v : RegalViolation) : LintDiagnostic :=
  let location := v.location.getD ⟨none, none, none⟩
  let row := jsOrInt location.row 1
  let col := jsOrInt location.col 1
  let textLength := jsTextLen location.text
  { fromLine := row
    fromCol := col
    toLine := row
    toCol := col + textLength
    severity := if v.level = some "error" then "error" else "warning"
    message := jsOrStr v.description (jsOrStr v.title "Unknown violation")
    source := "regal/" ++ jsOrStr v.category "unknown" ++ "/" ++ jsOrStr v.title "unknown"
    rule := v.title
    category := v.category
    documentation := match v.documentationUrl with
      | none => none
      | some u => if u = "" then none else some u }

/-- `mapToDiagnostics`: drop the suppressed rules, then map. -/
def mapToDiagnostics (violations : List RegalViolation) : List LintDiagnostic :=
  (violations.filter fun v => ¬ v.title = some "directory-package-mismatch").map
    mapViolation

/-- A CodeMirror document snapshot, as its list of line lengths; a CodeMirror
document always has at least one line, and `doc.length` counts one newline
between consecutive lines. -/
def docLength (lineLens : List Nat) : Int :=
  (lineLens.foldr (· + ·) 0 : Nat) + (lineLens.length : Int) - 1

/-- `doc.line(n).from` for a 1-based in-range line number. -/
def lineFromOffset (lineLens : List Nat) (n : Int) : Int :=
  ((lineLens.take (n.toNat - 1)).foldr (· + ·) 0 : Nat) + ((n.toNat : Int) - 1)

/-- `Math.min(Math.max(1, l), doc.lines)` — the row clamping in
`createRegoLinter`. -/
def cmSafeLine (lineLens : List Nat) (l : Int) : Int :=
  min (max 1 l) (lineLens.length : Int)

structure CMDiagnostic where
  fromOffset : Int
  toOffset : Int
  severity : String
  message : String
  source : String

/-- The per-diagnostic mapping body inside `createRegoLinter`: clamp lines,
convert to offsets within the line, and clamp the resulting range to the
document length. -/
def cmMapDiagnostic (lineLens : List Nat) (d : LintDiagnostic) : CMDiagnostic :=
  let safeFromLine := cmSafeLine lineLens d.fromLine
  let safeToLine := cmSafeLine lineLens d.toLine
  let fromPos := lineFromOffset lineLens safeFromLine + max 0 (d.fromCol - 1)
  let toPos := lineFromOffset lineLens safeToLine + max 0 (d.toCol - 1)
  let fromO := min fromPos (docLength lineLens)
  let toO := min (max toPos (fromO + 1)) (docLength lineLens)
  { fromOffset := fromO
    toOffset := toO
    severity := if d.severity = "error" then "error" else "warning"
    message := d.message
    source := d.source }

/-! ## The lint call's error handling (`createRegoLinter`) -/

structure LintApiResponse where
  success : Bool
  diagnostics : Option (List LintDiagnostic)

/-- The observable outcomes of the `fetch('/api/lint', …)` call. -/
inductive FetchOutcome where
  | networkError                 -- `fetch` rejected (no connection, timeout)
  | httpError (status : Nat)     -- `response.ok` false (non-2xx status)
  | badJson                      -- `response.json()` rejected (unparseable body)
  | ok (body : LintApiResponse)

/-- The `try` block of the linter callback; `Except.error` models an
exception propagating to the surrounding `catch`. -/
def regoLintAttempt (lineLens : List Nat) (outcome : FetchOutcome) :
    Except String (List CMDiagnostic) :=
  match outcome with
  | .networkError => .error "fetch failed"
  | .httpError _ => .ok []
  | .badJson => .error "response.json() failed"
  | .ok body =>
    if body.success = false ∨ body.diagnostics.isNone then .ok []
    else .ok ((body.diagnostics.getD []).map (cmMapDiagnostic lineLens))

/-- The whole linter callback: the short-document guard, the `try` block, and
the `catch` that publishes no findings; its return value is the diagnostic
set the editor displays (a full replacement of the previous set). -/
def regoLintRun (doc : String) (lineLens : List Nat) (outcome : FetchOutcome) :
    List CMDiagnostic :=
  if doc = "" ∨ doc.trim.length < 10 then []
  else
    match regoLintAttempt lineLens outcome with
    | .ok ds => ds
    | .error _ => []

/-! ## The expression grammar's precedence structure

The Lezer grammar file (`syntax.grammar`) is not among the analysed sources;
only its implementation guide is.  The expression level of the grammar is
therefore modelled from the spec's precedence table: unary prefix (`-`, `!`)
binds tightest, then multiplicative (`*`, `/`, `%`), additive (`+`, `-`),
comparison (`==`, `!=`, `<`, `<=`, `>`, `>=`), set/logic (`&`, `|`), and
assignment (`:=`, `=`); every binary level is left-associative and unary is
right-associative. -/

/-- Modelled from the spec: an expression-level token of the Rego grammar
(number and identifier atoms, operator tokens, parentheses). -/
inductive Tok where
  | num (n : Int)
  | ident (s : String)
  | op (s : String)
  | lparen
  | rparen
deriving DecidableEq

/-- Modelled from the spec: the expression subtree shapes of the produced
syntax tree that the precedence claims constrain. -/
inductive Expr where
  | lit (n : Int)
  | var (s : String)
  | unary (o : String) (e : Expr)
  | binary (o : String) (l r : Expr)
deriving DecidableEq

/-- Modelled from the spec: the binary precedence levels, loosest (assignment)
first, tightest (multiplicative) last. -/
def binLevels : List (List String) :=
  [[":=", "="],
   ["&", "|"],
   ["==", "!=", "<", "<=", ">", ">="],
   ["+", "-"],
   ["*", "/", "%"]]

def levelOps (lvl : Nat) : List String := binLevels.getD lvl []

mutual

/-- Modelled from the spec: precedence-climbing expression parsing; level 0–4
are the binary levels of `binLevels`, level 5 is the right-associative unary
prefix level, below which sit the atoms. -/
def parseLevel : Nat → Nat → List Tok → Option (Expr × List Tok)
  | 0, _, _ => none
  | fuel + 1, lvl, toks =>
    if lvl < 5 then
      match parseLevel fuel (lvl + 1) toks with
      | none => none
      | some (e, rest) => parseChain fuel lvl e rest
    else
      match toks with
      | .op o :: rest =>
        if o = "-" ∨ o = "!" then
          (parseLevel fuel 5 rest).map fun p => (.unary o p.1, p.2)
        else none
      | _ => parsePrimary fuel toks

/-- Modelled from the spec: the left-associative operator chain of one binary
level — each operator at this level folds the expression parsed so far into
the left operand. -/
def parseChain : Nat → Nat → Expr → List Tok → Option (Expr × List Tok)
  | 0, _, e, toks => some (e, toks)
  | fuel + 1, lvl, e, toks =>
    match toks with
    | .op o :: rest =>
      if o ∈ levelOps lvl then
        match parseLevel fuel (lvl + 1) rest with
        | none => none
        | some (e₂, rest₂) => parseChain fuel lvl (.binary o e e₂) rest₂
      else some (e, toks)
    | _ => some (e, toks)

/-- Modelled from the spec: atoms — literals, identifiers, and parenthesised
expressions. -/
def parsePrimary : Nat → List Tok → Option (Expr × List Tok)
  | _, .num n :: rest => some (.lit n, rest)
  | _, .ident s :: rest => some (.var s, rest)
  | fuel + 1, .lparen :: rest =>
    (match parseLevel fuel 0 rest with
     | some (e, .rparen :: rest₂) => some (e, rest₂)
     | _ => none)
  | _, _ => none

end

/-- Modelled from the spec: a full expression parse — the whole token stream
must be consumed. -/
def parseExpr (toks : List Tok) : Option Expr :=
  match parseLevel (8 * (toks.length + 1)) 0 toks with
  | some (e, []) => some e
  | _ => none

/-- Whether `a` occurs in `e` (as `e` itself or a descendant). -/
def occursIn (a e : Expr) : Bool :=
  (a = e) ||
    match e with
    | .unary _ b => occursIn a b
    | .binary _ l r => occursIn a l || occursIn a r
    | _ => false

/-! ## Supporting lemmas -/

/-- Size induction over `Json` (its nested lists defeat the structural
recursor, so claims about `buildSchemaNode` recurse on `sizeOf`). -/
theorem Json.sizeInduction {P : Json → Prop} (v : Json)
    (step : ∀ v, (∀ w : Json, sizeOf w < sizeOf v → P w) → P v) : P v := by
  suffices H : ∀ (n : Nat) (w : Json), sizeOf w ≤ n → P w from H (sizeOf v) v le_rfl
  intro n
  induction n with
  | zero =>
    intro w hw
    exact step w fun u hu => absurd (Nat.lt_of_lt_of_le hu hw) (Nat.not_lt_zero _)
  | succ n ih =>
    intro w hw
    exact step w fun u hu => ih u (by omega)

/-- Membership in the children list built by the schema builder comes from a
field of the source object. -/
theorem mem_buildChildren {kvs : List (String × Json)} {src : Option String}
    {kv : String × SchemaNode} (h : kv ∈ buildChildren kvs src) :
    ∃ p ∈ kvs, kv = (p.1, buildSchemaNode p.2 src) := by
  induction kvs with
  | nil => simp [buildChildren] at h
  | cons q rest ih =>
    obtain ⟨k, v⟩ := q
    rw [buildChildren] at h
    rcases List.mem_cons.mp h with h | h
    · exact ⟨(k, v), List.mem_cons_self _ _, h⟩
    · obtain ⟨p, hp, he⟩ := ih h
      exact ⟨p, List.mem_cons_of_mem _ hp, he⟩

/-- The recursive `SchemaNode` well-formedness of §3: `children` present iff
the node is an object, `arrayItemType` only on arrays, and the same at every
depth. -/
inductive SchemaWF : SchemaNode → Prop where
  | mk (t : SchemaType) (ch : Option (List (String × SchemaNode)))
      (it : Option SchemaNode) (ex : Option Json) (src : Option String)
      (hch : ch.isSome ↔ t = .object)
      (hit : it.isSome → t = .array)
      (hchildren : ∀ kv ∈ ch.getD [], SchemaWF kv.2)
      (hitem : ∀ item, it = some item → SchemaWF item) :
      SchemaWF (.mk t ch it ex src)

theorem buildSchemaNode_wf (v : Json) (src : Option String) :
    SchemaWF (buildSchemaNode v src) := by
  induction v using Json.sizeInduction with
  | step v ih =>
    match v with
    | .null =>
      rw [buildSchemaNode]
      exact .mk _ _ _ _ _ (by simp) (by simp) (by simp) (by simp)
    | .str s =>
      rw [buildSchemaNode]
      exact .mk _ _ _ _ _ (by simp) (by simp) (by simp) (by simp)
    | .num m e =>
      rw [buildSchemaNode]
      exact .mk _ _ _ _ _ (by simp) (by simp) (by simp) (by simp)
    | .bool b =>
      rw [buildSchemaNode]
      exact .mk _ _ _ _ _ (by simp) (by simp) (by simp) (by simp)
    | .arr xs =>
      cases xs with
      | nil =>
        rw [buildSchemaNode]
        exact .mk _ _ _ _ _ (by simp) (by simp) (by simp) (by simp)
      | cons x rest =>
        rw [buildSchemaNode]
        refine .mk _ _ _ _ _ (by simp) (by intro _; rfl) (by simp) ?_
        intro item hitem
        simp only [Option.some.injEq] at hitem
        subst hitem
        refine ih x ?_
        have h1 : sizeOf (Json.arr (x :: rest)) = 1 + (1 + sizeOf x + sizeOf rest) := by
          simp
        omega
    | .obj kvs =>
      rw [buildSchemaNode]
      refine .mk _ _ _ _ _ (by simp) (by simp) ?_ (by simp)
      intro kv hkv
      simp only [Option.getD_some] at hkv
      obtain ⟨p, hp, he⟩ := mem_buildChildren hkv
      subst he
      refine ih p.2 ?_
      have h1 := List.sizeOf_lt_of_mem hp
      obtain ⟨a, b⟩ := p
      simp at h1 ⊢
      omega

/-! ## Claim theorems -/

/-- C1 (the claim is the spec's stated requirement; the code violates
it).  The spec requires the Schema Builder's comment stripping to be
string-literal-aware, so that `{"url": "http://x"}` yields a schema whose
example for key `url` is the string `"http://x"`.  The code's regex
`\/\/[^\n]*` is not string-aware: on that document it deletes everything from
the `//` inside the string value to the end of the input, the remainder
`{"url": "http:` fails to parse, and `parseJsonToSchema` returns `null` —
even though the unstripped document is perfectly valid JSON with that value. -/
theorem c1_comment_stripping_not_string_aware :
    stripComments "\x7b\"url\": \"http://x\"\x7d" = "\x7b\"url\": \"http:" ∧
      parseJsonToSchema "\x7b\"url\": \"http://x\"\x7d" none = none ∧
      jsonParse "\x7b\"url\": \"http://x\"\x7d" =
        some (.obj [("url", .str "http://x")]) :=
  ⟨rfl, rfl, rfl⟩

/-- C2: The expression grammar honors operator precedence:
`3 + 4 * 5` parses to an addition whose right operand is the multiplication
(so the multiplication is a descendant of the addition's second operand and
never the reverse); generally any multiplicative operator binds tighter than
any additive one, and every binary level associates left. -/
theorem c2_operator_precedence :
    (parseExpr [.num 3, .op "+", .num 4, .op "*", .num 5] =
        some (.binary "+" (.lit 3) (.binary "*" (.lit 4) (.lit 5)))) ∧
    (∀ na nb nc : Int, ∀ aop ∈ (["+", "-"] : List String),
        ∀ mop ∈ (["*", "/", "%"] : List String),
      parseExpr [.num na, .op aop, .num nb, .op mop, .num nc] =
        some (.binary aop (.lit na) (.binary mop (.lit nb) (.lit nc)))) ∧
    (∀ na nb nc : Int, ∀ lvl < 5, ∀ o₁ ∈ levelOps lvl, ∀ o₂ ∈ levelOps lvl,
      parseExpr [.num na, .op o₁, .num nb, .op o₂, .num nc] =
        some (.binary o₂ (.binary o₁ (.lit na) (.lit nb)) (.lit nc))) := by
  refine ⟨rfl, ?_, ?_⟩
  · intro na nb nc aop haop mop hmop
    fin_cases haop <;> fin_cases hmop <;> rfl
  · intro na nb nc lvl hlvl o₁ h₁ o₂ h₂
    interval_cases lvl <;>
      simp only [levelOps, binLevels, List.getD, List.get?] at h₁ h₂ <;>
      fin_cases h₁ <;> fin_cases h₂ <;> rfl

/-- Witness for C2: the general precedence and associativity statements
applied to `1 + 2 * 3` and to `1 - 2 - 3`. -/
theorem c2_operator_precedence_witness :
    parseExpr [.num 1, .op "+", .num 2, .op "*", .num 3] =
        some (.binary "+" (.lit 1) (.binary "*" (.lit 2) (.lit 3))) ∧
      parseExpr [.num 1, .op "-", .num 2, .op "-", .num 3] =
        some (.binary "-" (.binary "-" (.lit 1) (.lit 2)) (.lit 3)) :=
  ⟨c2_operator_precedence.2.1 1 2 3 "+" (by simp) "*" (by simp),
   c2_operator_precedence.2.2 1 2 3 3 (by omega) "-"
     (by simp [levelOps, binLevels]) "-" (by simp [levelOps, binLevels])⟩

/-- C8: Every node the Schema Builder produces satisfies, recursively at
every depth, that `children` is present iff the node's type is `object` and
`arrayItemType` only appears on `array` nodes; and for a node built from an
array, `arrayItemType` is present iff that array was non-empty. -/
theorem c8_schema_node_invariant (v : Json) (src : Option String) :
    SchemaWF (buildSchemaNode v src) ∧
      (∀ xs : List Json,
        (buildSchemaNode (Json.arr xs) src).arrayItemType.isSome ↔ xs ≠ []) := by
  refine ⟨buildSchemaNode_wf v src, ?_⟩
  intro xs
  cases xs with
  | nil => rw [buildSchemaNode]; simp [SchemaNode.arrayItemType]
  | cons x rest => rw [buildSchemaNode]; simp [SchemaNode.arrayItemType]

/-- A document with at least one line has a non-negative length. -/
theorem docLength_nonneg {lineLens : List Nat} (h : lineLens ≠ []) :
    0 ≤ docLength lineLens := by
  have : 1 ≤ lineLens.length := List.length_pos.mpr h
  simp only [docLength]
  have : (0 : Int) ≤ (lineLens.foldr (· + ·) 0 : Nat) := Int.natCast_nonneg _
  omega

/-- Line starts are non-negative for 1-based line numbers. -/
theorem lineFromOffset_nonneg (lineLens : List Nat) {n : Int} (h : 1 ≤ n) :
    0 ≤ lineFromOffset lineLens n := by
  simp only [lineFromOffset]
  have h1 : (0 : Int) ≤ ((lineLens.take (n.toNat - 1)).foldr (· + ·) 0 : Nat) :=
    Int.natCast_nonneg _
  omega

/-- C3: for every linter finding carrying a 1-based location and every
current document snapshot, the composed Diagnostics Mapper clamps the row
into `[1, lineCount]`, computes the end offset as
`start + max(1, len(location.text))` clamped to the document length, and the
resulting offsets satisfy `0 ≤ from ≤ to ≤ docLength` — no negative or
overflowing range even when the row or column no longer exists. -/
theorem c3_diagnostics_mapper_in_bounds
    (v : RegalViolation) (loc : RegalLocation) (lineLens : List Nat)
    (hloc : v.location = some loc)
    (hcol : ∀ c, loc.col = some c → 1 ≤ c)
    (hlens : lineLens ≠ []) :
    (1 ≤ cmSafeLine lineLens (mapViolation v).fromLine ∧
      cmSafeLine lineLens (mapViolation v).fromLine ≤ (lineLens.length : Int) ∧
      cmSafeLine lineLens (mapViolation v).fromLine =
        min (max 1 (jsOrInt loc.row 1)) (lineLens.length : Int)) ∧
    (cmMapDiagnostic lineLens (mapViolation v)).toOffset =
      min ((cmMapDiagnostic lineLens (mapViolation v)).fromOffset +
            max 1 (((loc.text.getD "").length : Int)))
        (docLength lineLens) ∧
    (0 ≤ (cmMapDiagnostic lineLens (mapViolation v)).fromOffset ∧
      (cmMapDiagnostic lineLens (mapViolation v)).fromOffset ≤
        (cmMapDiagnostic lineLens (mapViolation v)).toOffset ∧
      (cmMapDiagnostic lineLens (mapViolation v)).toOffset ≤ docLength lineLens) := by
  have hn : 1 ≤ (lineLens.length : Int) := by
    have := List.length_pos.mpr hlens
    omega
  have hfl : (mapViolation v).fromLine = jsOrInt loc.row 1 := by
    simp [mapViolation, hloc]
  have htl : (mapViolation v).toLine = jsOrInt loc.row 1 := by
    simp [mapViolation, hloc]
  have hfc : (mapViolation v).fromCol = jsOrInt loc.col 1 := by
    simp [mapViolation, hloc]
  have htc : (mapViolation v).toCol = jsOrInt loc.col 1 + jsTextLen loc.text := by
    simp [mapViolation, hloc]
  have hcol' : 1 ≤ jsOrInt loc.col 1 := by
    cases hc : loc.col with
    | none => simp [jsOrInt]
    | some c =>
      have := hcol c hc
      simp only [jsOrInt]
      split <;> omega
  have hTeq : jsTextLen loc.text = max 1 (((loc.text.getD "").length : Int)) := by
    cases loc.text with
    | none => simp [jsTextLen]
    | some t =>
      simp only [jsTextLen, Option.getD_some]
      split <;> omega
  have hT1 : 1 ≤ jsTextLen loc.text := by rw [hTeq]; exact le_max_left _ _
  have hsafe : cmSafeLine lineLens (mapViolation v).fromLine =
      min (max 1 (jsOrInt loc.row 1)) (lineLens.length : Int) := by
    rw [hfl]; rfl
  have hsafe1 : 1 ≤ cmSafeLine lineLens (mapViolation v).fromLine := by
    rw [hsafe]; omega
  have hsafe2 : cmSafeLine lineLens (mapViolation v).fromLine ≤ (lineLens.length : Int) := by
    rw [hsafe]; omega
  refine ⟨⟨hsafe1, hsafe2, hsafe⟩, ?_⟩
  have hL0 : 0 ≤ docLength lineLens := docLength_nonneg hlens
  have hbase0 : 0 ≤ lineFromOffset lineLens (cmSafeLine lineLens (mapViolation v).fromLine) :=
    lineFromOffset_nonneg _ hsafe1
  simp only [cmMapDiagnostic, htl, hfl, hfc, htc]
  rw [← hfl]
  set base := lineFromOffset lineLens (cmSafeLine lineLens (mapViolation v).fromLine) with hbase
  rw [← hTeq]
  constructor
  · omega
  · omega

/-- The spec's worked example for the Diagnostics Mapper: a finding at
`{row: 3, col: 5, text: "foo"}`. -/
def c3ExampleViolation : RegalViolation :=
  { title := some "rule", category := some "style", level := some "error"
    location := some { row := some 3, col := some 5, text := some "foo" }
    description := some "d", documentationUrl := none }

/-- Witness for C3: the example finding against a two-line document with
line lengths 4 and 4 (document length 9) stays in bounds. -/
theorem c3_diagnostics_mapper_in_bounds_witness :
    0 ≤ (cmMapDiagnostic [4, 4] (mapViolation c3ExampleViolation)).fromOffset ∧
      (cmMapDiagnostic [4, 4] (mapViolation c3ExampleViolation)).fromOffset ≤
        (cmMapDiagnostic [4, 4] (mapViolation c3ExampleViolation)).toOffset ∧
      (cmMapDiagnostic [4, 4] (mapViolation c3ExampleViolation)).toOffset ≤ docLength [4, 4] :=
  (c3_diagnostics_mapper_in_bounds c3ExampleViolation
      ⟨some 3, some 5, some "foo"⟩ [4, 4] rfl
      (fun c hc => by simp only [Option.some.injEq] at hc; omega) (by simp)).2.2

/-- C4: whenever the (comment-stripped) text fails to parse as JSON, the
Schema Builder returns `null` rather than throwing, and any completion
request rooted at that buffer (`data.*` here, with the data buffer built
from the malformed text) yields the empty candidate list. -/
theorem c4_malformed_json_null_schema_empty_completions
    (s : String) (name : Option String) (inputSchema : Option SchemaNode) (pfx : String)
    (hparse : jsonParse (stripComments s) = none)
    (hroot : (jsSplitDot pfx).headD "" = "data") :
    parseJsonToSchema s name = none ∧
      getCompletionsForPath ⟨inputSchema, parseJsonToSchema s name⟩ pfx = [] := by
  have h1 : parseJsonToSchema s name = none := by
    simp [parseJsonToSchema, hparse]
  refine ⟨h1, ?_⟩
  rw [h1]
  simp only [getCompletionsForPath]
  rw [hroot]
  rfl

/-- Witness for C4: the unterminated document `{` as the `data` buffer and
the completion request `data.x`. -/
theorem c4_malformed_json_witness :
    parseJsonToSchema "\x7b" none = none ∧
      getCompletionsForPath ⟨none, parseJsonToSchema "\x7b" none⟩ "data.x" = [] :=
  c4_malformed_json_null_schema_empty_completions "\x7b" none none "data.x" rfl rfl

/-- The spec's Path Resolver example document, parsed as the `input` root. -/
def identityContext : DataContext :=
  { input := parseJsonToSchema "\x7b\"identity\": \x7b\"roles\": [\"admin\", \"user\"]\x7d\x7d" none
    data := none }

/-- The schema the builder produces for the example document. -/
def identitySchema : SchemaNode :=
  .mk .object
    (some [("identity",
      .mk .object
        (some [("roles",
          .mk .array none
            (some (.mk .string none none (some (.str "admin")) none))
            (some (.arr [.str "admin", .str "user"])) none)])
        none (some (.arr [.str "roles"])) none)])
    none (some (.arr [.str "identity"])) none

theorem identityContext_eq : identityContext = ⟨some identitySchema, none⟩ := by
  have hj : jsonParse (stripComments "\x7b\"identity\": \x7b\"roles\": [\"admin\", \"user\"]\x7d\x7d") =
      some (.obj [("identity", .obj [("roles", .arr [.str "admin", .str "user"])])]) := rfl
  simp [identityContext, parseJsonToSchema, hj, buildSchemaNode, buildChildren, identitySchema]

/-- C7: for every `DataContext` and every hover path whose walk resolves to
an array node with a known item type, the hover payload's type string is
rendered as `array<itemType>`; in particular, with the `input` schema built
from `{"identity": {"roles": ["admin", "user"]}}`, completion for the prefix
`input.identity.` yields exactly the single candidate `roles`, and hover for
`input.identity.roles` reports the type `array<string>`. -/
theorem c7_array_hover_and_completion :
    (∀ (ctx : DataContext) (path : String) (schema cur item : SchemaNode),
      rootSchema ctx ((jsSplitDot path).headD "") = some schema →
      tooltipWalk (some schema) (jsSplitDot path).tail = some cur →
      cur.type = .array →
      cur.arrayItemType = some item →
      (getTooltipForPath ctx path).map TooltipInfo.type =
        some ("array<" ++ item.type.name ++ ">")) ∧
    (getCompletionsForPath identityContext "input.identity.").map Completion.label =
        ["roles"] ∧
      (getTooltipForPath identityContext "input.identity.roles").map TooltipInfo.type =
        some "array<string>" := by
  refine ⟨?_, ?_⟩
  · intro ctx path schema cur item hschema hwalk hty hitem
    simp only [getTooltipForPath, hschema, hwalk, Option.map_some]
    simp [formatTypeDescription, hty, hitem]
  · rw [identityContext_eq]
    exact ⟨rfl, rfl⟩

/-- Witness for C7: the universal `array<itemType>` rendering applied to the
example context's `input.identity.roles` node, whose item type is `string`. -/
theorem c7_array_hover_witness :
    (getTooltipForPath ⟨some identitySchema, none⟩ "input.identity.roles").map
        TooltipInfo.type = some "array<string>" :=
  c7_array_hover_and_completion.1 ⟨some identitySchema, none⟩ "input.identity.roles"
    identitySchema
    (.mk .array none (some (.mk .string none none (some (.str "admin")) none))
      (some (.arr [.str "admin", .str "user"])) none)
    (.mk .string none none (some (.str "admin")) none)
    rfl rfl rfl rfl

/-- C10: in the completion walk, a numeric segment applied to an array node
built from a non-empty array resolves to the schema of the array's first
element, whatever the numeric value — an out-of-range index resolves exactly
like index 0, never failing. -/
theorem c10_numeric_segment_resolves_first_element
    (x : Json) (xs : List Json) (src : Option String) (part : String)
    (hnum : jsParseIntDefined part = true) :
    completionStep (buildSchemaNode (Json.arr (x :: xs)) src) part =
        some (buildSchemaNode x src) ∧
      completionWalk (some (buildSchemaNode (Json.arr (x :: xs)) src)) [part] =
        some (buildSchemaNode x src) := by
  have hstep : completionStep (buildSchemaNode (Json.arr (x :: xs)) src) part =
      some (buildSchemaNode x src) := by
    rw [buildSchemaNode]
    simp [completionStep, SchemaNode.type, SchemaNode.children, SchemaNode.arrayItemType,
      hnum]
  have hne : part ≠ "" := by
    intro h
    subst h
    exact absurd hnum (by decide)
  refine ⟨hstep, ?_⟩
  simp [completionWalk, hne, hstep]

/-- Witness for C10: index `42` on a two-element string array resolves to the
first element's schema. -/
theorem c10_numeric_segment_witness :
    completionStep (buildSchemaNode (Json.arr [Json.str "a", Json.str "b"]) none) "42" =
      some (buildSchemaNode (Json.str "a") none) :=
  (c10_numeric_segment_resolves_first_element (Json.str "a") [Json.str "b"] none "42" rfl).1

/-- C6: when the completion walk lands on an array node whose item type is an
object with children, the returned candidates are exactly the item object's
children with every label prefixed by the `[_].` marker — the keys are never
returned unprefixed as direct properties of the array. -/
theorem c6_array_item_completions_prefixed
    (ctx : DataContext) (pfx : String) (schema cur item : SchemaNode)
    (kvs : List (String × SchemaNode))
    (hschema : rootSchema ctx ((jsSplitDot pfx).headD "") = some schema)
    (hwalk : completionWalk (some schema) (jsSplitDot pfx).tail = some cur)
    (hty : cur.type = .array)
    (hitem : cur.arrayItemType = some item)
    (hity : item.type = .object)
    (hch : item.children = some kvs) :
    getCompletionsForPath ctx pfx = kvs.map arrayItemCompletion ∧
      ∀ c ∈ getCompletionsForPath ctx pfx, ∃ kv ∈ kvs, c.label = "[_]." ++ kv.1 := by
  have hmain : getCompletionsForPath ctx pfx = kvs.map arrayItemCompletion := by
    simp only [getCompletionsForPath, hschema, hwalk]
    rw [if_neg (by simp [hty])]
    simp [hitem, hty, hity, hch]
  refine ⟨hmain, ?_⟩
  rw [hmain]
  intro c hc
  obtain ⟨kv, hkv, he⟩ := List.mem_map.mp hc
  exact ⟨kv, hkv, by rw [← he]; rfl⟩

/-- An array-of-object schema node used to witness C6. -/
def c6ItemNode : SchemaNode :=
  .mk .object (some [("name", .mk .string none none (some (.str "x")) none)]) none none none

def c6ArrayNode : SchemaNode := .mk .array none (some c6ItemNode) none none

/-- Witness for C6: completing at an array-of-object root yields the single
`[_].name` candidate. -/
theorem c6_array_item_completions_witness :
    getCompletionsForPath ⟨some c6ArrayNode, none⟩ "input" =
      [("name", SchemaNode.mk .string none none (some (.str "x")) none)].map
        arrayItemCompletion :=
  (c6_array_item_completions_prefixed ⟨some c6ArrayNode, none⟩ "input" c6ArrayNode
      c6ArrayNode c6ItemNode
      [("name", SchemaNode.mk .string none none (some (.str "x")) none)]
      rfl rfl rfl rfl rfl rfl).1

/-- C9: every transport- or server-level failure of the lint call — a thrown
network error, a non-OK HTTP status, or an unparseable response body — makes
the linter callback publish the empty diagnostic set rather than a finding or
an exception (the callback returns normally, leaving the pipeline idle). -/
theorem c9_transport_failure_publishes_empty
    (doc : String) (lineLens : List Nat) (outcome : FetchOutcome)
    (hfail : outcome = .networkError ∨ (∃ st, outcome = .httpError st) ∨
      outcome = .badJson) :
    regoLintRun doc lineLens outcome = [] := by
  rcases hfail with h | ⟨st, h⟩ | h <;> subst h <;>
    simp only [regoLintRun, regoLintAttempt] <;> split <;> rfl

/-- Witness for C9: a network error on a non-trivial document publishes no
diagnostics. -/
theorem c9_transport_failure_witness :
    regoLintRun "package policy\n\ndefault allow := false" [15, 0, 22]
      FetchOutcome.networkError = [] :=
  c9_transport_failure_publishes_empty _ _ _ (Or.inl rfl)

/-- A context whose `input` schema is non-null, for the C5 counterexample. -/
def c5InputOnlyContext : DataContext :=
  ⟨some (.mk .object (some []) none none none), none⟩

/-- C5 counterexample: with a non-null `input` schema, the strict prefix `i`
does not trigger the root special case — the source falls through to the
generic keyword/builtin list instead of returning exactly the root
candidates, because the root-word regex `\b(inp|inpu|input|dat|data)$` has no
alternatives shorter than three characters. -/
theorem c5_short_prefix_counterexample :
    regoCompletionSource [] "Identifier" "i" c5InputOnlyContext =
        some (0, keywordCompletions) ∧
      regoCompletionSource [] "Identifier" "i" c5InputOnlyContext ≠
        some (0, regoRootCompletions c5InputOnlyContext) := by
  constructor
  · rfl
  · decide

/-- C5 (amended): only the three-character-or-longer strict prefixes `inp`,
`inpu` and `dat` trigger the root special case — and if both schemas are
null the source falls through to the generic list rather than returning an
empty root list — while the shorter strict prefixes `i`, `in`, `d`, `da`
always fall through to the generic keyword/builtin list. -/
theorem c5_root_prefix_special_case_amended
    (builtins : List Completion) (ctx : DataContext) :
    (regoCompletionSource builtins "Identifier" "inp" ctx =
      if (regoRootCompletions ctx).isEmpty then
        some (0, builtins ++ keywordCompletions)
      else some (0, regoRootCompletions ctx)) ∧
    (regoCompletionSource builtins "Identifier" "inpu" ctx =
      if (regoRootCompletions ctx).isEmpty then
        some (0, builtins ++ keywordCompletions)
      else some (0, regoRootCompletions ctx)) ∧
    (regoCompletionSource builtins "Identifier" "dat" ctx =
      if (regoRootCompletions ctx).isEmpty then
        some (0, builtins ++ keywordCompletions)
      else some (0, regoRootCompletions ctx)) ∧
    (regoCompletionSource builtins "Identifier" "i" ctx =
      some (0, builtins ++ keywordCompletions)) ∧
    (regoCompletionSource builtins "Identifier" "in" ctx =
      some (0, builtins ++ keywordCompletions)) ∧
    (regoCompletionSource builtins "Identifier" "d" ctx =
      some (0, builtins ++ keywordCompletions)) ∧
    (regoCompletionSource builtins "Identifier" "da" ctx =
      some (0, builtins ++ keywordCompletions)) := by
  obtain ⟨i, d⟩ := ctx
  cases i <;> cases d <;> exact ⟨rfl, rfl, rfl, rfl, rfl, rfl, rfl⟩

end RegoLab